import Mathlib

/-!
# Verification of the dynamic pair-selection engine (VolumePairList) and the
# Bybit tradability predicate

Shallow embedding of `freqtrade/plugins/pairlist/VolumePairList.py` and
`freqtrade/exchange/bybit.py`.

Conventions of the embedding:
* Python dicts become association lists (`List (String × Ticker)`), which keeps
  the dict's insertion/iteration order; a real dict has pairwise-distinct keys,
  which theorems assume through the `WF` predicate where needed.
* In-place mutation (`tickers[pair]['quoteVolume'] = volume`) becomes explicit
  state passing: the functions return the updated map.
* Fallible Python operations (KeyError from `tickers[pair]`, TypeError from
  comparing `None` with a number, an unparsable timerange) become
  `Except PyErr`.
* Numbers that the source only ever compares and copies (volumes, the
  minimum-value floor) are embedded as `Int`.
* Collaborators that live outside the supplied source files (the exchange, the
  historical data store, `IPairList` helpers, `TimeRange.parse_timerange`) are
  either function-valued fields of the `Exchange`/`Store` records or are
  modelled from the spec; each such definition says so in its doc comment.
-/

/-- Runtime errors the embedded Python code can raise. -/
inductive PyErr where
  /-- `tickers[pair]` with a missing key. -/
  | keyError : PyErr
  /-- comparing `None` against a number (`None > 0`, sorting mixed keys). -/
  | typeError : PyErr
  /-- `TimeRange.parse_timerange` on an expression it cannot parse. -/
  | parseError : PyErr
deriving Repr, DecidableEq

instance {ε α : Type} [DecidableEq ε] [DecidableEq α] :
    DecidableEq (Except ε α) := fun x y =>
  match x, y with
  | .error a, .error b =>
    if h : a = b then .isTrue (by rw [h])
    else .isFalse (fun hh => h (Except.error.inj hh))
  | .error _, .ok _ => .isFalse (fun hh => Except.noConfusion hh)
  | .ok _, .error _ => .isFalse (fun hh => Except.noConfusion hh)
  | .ok a, .ok b =>
    if h : a = b then .isTrue (by rw [h])
    else .isFalse (fun hh => h (Except.ok.inj hh))

/-- One value of the ticker snapshot: the dict the exchange returns per symbol.
`quoteVolume` is the only field the engine reads or writes (the configured sort
key is validated against `SORT_VALUES = ['quoteVolume']` at construction time,
so `v[self._sort_key]` is this field); `other` stands for all the remaining
ticker fields (prices, bid/ask, ...), carried along to state frame effects. -/
structure Ticker where
  symbol : String
  quoteVolume : Option Int
  other : Int := 0
deriving Repr, DecidableEq

/-- A ticker snapshot: insertion-ordered dict from symbol to ticker entry. -/
abbrev Tickers := List (String × Ticker)

/-- A stored daily candle as `history.load_data` returns it: `date` is the
candle's timestamp in epoch seconds (`int(df.iloc[0]['date'].timestamp())`). -/
structure Candle where
  date : Int
  volume : Int
deriving Repr, DecidableEq

/-- One OHLCV row from `exchange.get_historic_ohlcv`: `candles[0][0]` is the
millisecond timestamp, `candles[0][-1]` the volume. -/
structure ExCandle where
  ts : Int
  volume : Int
deriving Repr, DecidableEq

/-- `freqtrade.configuration.TimeRange`: both bounds are epoch **seconds**, as
witnessed in the source by `since_ms = timerange.startts * 1000` and by the
comparison with `int(df.iloc[0]['date'].timestamp())`. -/
structure TimeRange where
  startts : Int
  stopts : Int
deriving Repr, DecidableEq

/-- A market dict as `Bybit.market_is_tradable` reads it: `market.get('future',
False)` / `market.get('spot', False)`, absent keys defaulting to `False`. -/
structure Market where
  future : Bool
  spot : Bool
deriving Repr, DecidableEq

/-- The Exchange collaborator, reduced to the operations the supplied source
calls on it. -/
structure Exchange where
  /-- `exchange_has('fetchTickers')`. -/
  has_fetchTickers : Bool
  /-- `get_pair_quote_currency(pair)`. -/
  quote : String → String
  /-- `get_historic_ohlcv(pair, '1d', since_ms)`. -/
  historic : String → Int → List ExCandle
  /-- the market-tradability predicate used by `_whitelist_for_active_markets`
  (per the spec, "keep only symbols the exchange currently reports as
  tradable"). -/
  tradable : String → Bool

/-- The historical data store behind `history.load_data`: all stored daily
candles per pair, ascending by timestamp. -/
structure Store where
  load : String → List Candle

/-- The constructed `VolumePairList` engine: the fields `__init__` stores. -/
structure Engine where
  stake_currency : String
  number_pairs : Nat
  sort_key : String
  min_value : Int
  refresh_period : Int
  /-- `self._config.get('timerange', None)`. -/
  timerange : Option String
  exchange : Exchange
  store : Store
  /-- the blacklist consulted by `verify_blacklist` (via the pairlist
  manager). -/
  blacklist : List String

/-- `SORT_VALUES = ['quoteVolume']`. -/
def SORT_VALUES : List String := ["quoteVolume"]

/-- The single-slot TTL cache `self._pair_cache` (a `TTLCache(maxsize=1,
ttl=refresh_period)`): at most one entry, stored with its expiry time. -/
structure Cache where
  entry : Option (List String × Int)
deriving Repr, DecidableEq

/-- `self._pair_cache.get('pairlist')`: the stored value while `now` is before
its expiry time, `None` (here `none`) otherwise. -/
def cacheGet (c : Cache) (now : Int) : Option (List String) :=
  match c.entry with
  | some (v, exp) => if now < exp then some v else none
  | none => none

/-- `self._pair_cache['pairlist'] = pairlist`: overwrite the single slot; the
entry expires `ttl` seconds after insertion. -/
def cacheSet (now : Int) (v : List String) (ttl : Int) : Cache :=
  ⟨some (v, now + ttl)⟩

/-- First-match association-list lookup, i.e. `tickers[pair]` (Python dicts
have unique keys, so first match is the match). -/
def lookupT (k : String) : Tickers → Option Ticker
  | [] => none
  | kv :: rest => if kv.1 = k then some kv.2 else lookupT k rest

/-- Well-formedness of a real ticker snapshot: dict keys are pairwise distinct,
and each entry's `symbol` field equals its dict key (as `exchange.get_tickers`
produces it). -/
def WF (t : Tickers) : Prop :=
  (t.map (·.1)).Nodup ∧ ∀ kv ∈ t, kv.2.symbol = kv.1

instance : DecidablePred WF := fun _ =>
  inferInstanceAs (Decidable (_ ∧ _))

/-! ## Stable descending sort

`sorted(filtered_tickers, reverse=True, key=lambda t: t[self._sort_key])`:
CPython's sort is stable also with `reverse=True` — elements with equal keys
keep their original relative order. Insertion into an already descending-sorted
list walks past strictly larger keys and stops at the first key `≤` its own,
so an element inserted from further left lands before equal keys. -/

/-- Insert `x` into a descending-sorted list, before the first element whose
key is not larger. -/
def insertDesc (key : α → Int) (x : α) : List α → List α
  | [] => [x]
  | y :: ys => if key x < key y then y :: insertDesc key x ys else x :: y :: ys

/-- Stable descending insertion sort by `key`. -/
def sortDesc (key : α → Int) : List α → List α
  | [] => []
  | x :: xs => insertDesc key x (sortDesc key xs)

/-! ## Timerange parsing (collaborator, modelled from the spec) -/

/-- Parse a run of decimal digits; `none` on the empty list or a non-digit. -/
def digitsToNat : List Char → Option Nat
  | [] => none
  | cs => cs.foldl (fun acc c => match acc with
      | none => none
      | some n => if c.isDigit then some (n * 10 + (c.toNat - 48)) else none)
      (some 0)

/-- Days between 1970-01-01 and the civil date y-m-d (standard civil-calendar
conversion). -/
def daysFromCivil (y m d : Int) : Int :=
  let y := if m ≤ 2 then y - 1 else y
  let era := (if 0 ≤ y then y else y - 399) / 400
  let yoe := y - era * 400
  let mp := (m + 9) % 12
  let doy := (153 * mp + 2) / 5 + d - 1
  let doe := yoe * 365 + yoe / 4 - yoe / 100 + doy
  era * 146097 + doe - 719468

/-- Epoch seconds of midnight UTC of a `YYYYMMDD` date token. -/
def dateToTs (cs : List Char) : Option Int :=
  if cs.length = 8 then
    match digitsToNat (cs.take 4), digitsToNat ((cs.drop 4).take 2),
        digitsToNat (cs.drop 6) with
    | some y, some m, some d => some (86400 * daysFromCivil y m d)
    | _, _, _ => none
  else none

/-- Split a character list on `'-'`. -/
def splitDash : List Char → List (List Char)
  | [] => [[]]
  | c :: cs =>
    if c = '-' then [] :: splitDash cs
    else match splitDash cs with
      | [] => [[c]]
      | p :: ps => (c :: p) :: ps

/-- Modelled from the spec: `TimeRange.parse_timerange`
(`freqtrade.configuration`, not under the supplied sources) — "Parse the
configured date expression into a TimeWindow", restricted to the
`YYYYMMDD-YYYYMMDD` form this call site produces. Both bounds are epoch
seconds (see `TimeRange`). -/
def parse_timerange (s : String) : Option TimeRange :=
  match splitDash s.data with
  | [a, b] =>
    match dateToTs a, dateToTs b with
    | some x, some y => some ⟨x, y⟩
    | _, _ => none
  | _ => none

/-- The replay window `filter_pairlist` derives from the configured
`timerange` expression: duplicate a dash-free single date
(`past_date_str += f'-{past_date_str}'`), parse, then
`timerange.stopts += 24*60*60*1000` — a literal 86 400 000 added to a field
measured in epoch seconds. -/
def replayTimerange (s : String) : Option TimeRange :=
  let s2 := if s.data.contains '-' then s else s ++ "-" ++ s
  match parse_timerange s2 with
  | none => none
  | some tr => some { tr with stopts := tr.stopts + 24 * 60 * 60 * 1000 }

/-! ## Historical volume resolution -/

/-- Modelled from the spec: `history.load_data(datadir, pairs, '1d', timerange,
startup_candles=0, fail_without_data=False, ...)` (not under the supplied
sources) — per the spec it "loads previously stored daily candles covering the
window from the data store"; a pair with no candle in the window is absent
from the returned mapping ("for any symbol not resolvable from the store, fall
back to ... the Exchange collaborator"). -/
def loadData (st : Store) (pair : String) (tr : TimeRange) : List Candle :=
  (st.load pair).filter (fun c => decide (tr.startts ≤ c.date) &&
    decide (c.date < tr.stopts))

/-- The per-pair body of the store loop: `volume = 0; if not df.empty and
int(df.iloc[0]['date'].timestamp()) == timerange.startts: volume =
df.iloc[0]['volume']`. -/
def resolveStored (tr : TimeRange) : List Candle → Int
  | [] => 0
  | c :: _ => if c.date = tr.startts then c.volume else 0

/-- The per-pair body of the exchange fallback loop: `volume = 0; candles =
get_historic_ohlcv(pair, '1d', since_ms); if candles and candles[0][0] ==
since_ms: volume = candles[0][-1]`. -/
def resolveExchange (ex : Exchange) (pair : String) (since_ms : Int) : Int :=
  match ex.historic pair since_ms with
  | [] => 0
  | c :: _ => if c.ts = since_ms then c.volume else 0

/-- `tickers[pair]['quoteVolume'] = volume`: KeyError when `pair` is not a
key; otherwise update that entry's `quoteVolume` in place. -/
def setVolume (t : Tickers) (pair : String) (v : Int) : Except PyErr Tickers :=
  if t.any (fun kv => decide (kv.1 = pair)) then
    .ok (t.map (fun kv =>
      if kv.1 = pair then (kv.1, { kv.2 with quoteVolume := some v }) else kv))
  else .error .keyError

/-- Run `tickers[pair]['quoteVolume'] = resolve pair` over `pairs` in order. -/
def setVolumes (resolve : String → Int) (pairs : List String) (t : Tickers) :
    Except PyErr Tickers :=
  match pairs with
  | [] => .ok t
  | p :: ps =>
    match setVolume t p (resolve p) with
    | .error e => .error e
    | .ok t1 => setVolumes resolve ps t1

/-- The two mutation loops of the replay branch. The first loop walks
`data.items()` — the candidates the store resolves (`load_data` keyed by pair,
so duplicates collapse; re-assigning the same pair the same volume leaves the
map unchanged, which the `filter` formulation reproduces). The second loop
walks the remaining candidates (`if pair in processed_pairs: continue`) with
the exchange fallback. -/
def replayApply (e : Engine) (pl : List String) (tr : TimeRange)
    (t : Tickers) : Except PyErr Tickers :=
  match setVolumes (fun p => resolveStored tr (loadData e.store p tr))
      (pl.filter (fun p => !(loadData e.store p tr).isEmpty)) t with
  | .error er => .error er
  | .ok t1 =>
    setVolumes (fun p => resolveExchange e.exchange p (tr.startts * 1000))
      (pl.filter (fun p => !(decide (p ∈ pl.filter
        (fun q => !(loadData e.store q tr).isEmpty))))) t1

/-- The volume every candidate resolves to in replay mode: the store's first
in-window candle when the store has any, else the exchange fallback; in either
source the volume counts only when the first candle's timestamp equals the
window start exactly, and is 0 otherwise. -/
def ruleValue (e : Engine) (tr : TimeRange) (p : String) : Int :=
  match loadData e.store p tr with
  | [] => resolveExchange e.exchange p (tr.startts * 1000)
  | c :: cs => resolveStored tr (c :: cs)

/-! ## filter_pairlist -/

/-- Step 1 — narrow: `[v for k, v in tickers.items() if k in pairlist]`
(the keys ride along; each `v` is the dict stored under its key `k`). -/
def narrow (pl : List String) (t : Tickers) : Tickers :=
  t.filter (fun kv => decide (kv.1 ∈ pl))

/-- Step 2 — volume floor: `if self._min_value > 0: filtered_tickers = [v for
v in filtered_tickers if v[self._sort_key] > self._min_value]`. Comparing a
`None` metric against the number raises TypeError. -/
def floorFilter (m : Int) (l : Tickers) : Except PyErr Tickers :=
  if 0 < m then
    if l.any (fun kv => kv.2.quoteVolume.isNone) then .error .typeError
    else .ok (l.filter (fun kv => decide (m < kv.2.quoteVolume.getD 0)))
  else .ok l

/-- Step 3 — the conditional historical override: nothing without a configured
`timerange`; with one, derive the replay window and run the mutation loops
over the full candidate list. -/
def applyTimerange (e : Engine) (pl : List String) (t : Tickers) :
    Except PyErr Tickers :=
  match e.timerange with
  | none => .ok t
  | some s =>
    match replayTimerange s with
    | none => .error .parseError
    | some tr => replayApply e pl tr t

/-- The current value of a kept entry at sort time: the narrowed list holds
references to the dicts stored in `tickers`, so after the in-place volume
update each kept entry reads as the updated map's value at its key. -/
def refresh (t2 : Tickers) (kv : String × Ticker) : Ticker :=
  match lookupT kv.1 t2 with
  | some v => v
  | none => kv.2

/-- Step 4 — `sorted(filtered_tickers, reverse=True, key=lambda t:
t[self._sort_key])`: stable descending. With two or more elements CPython's
run detection compares every adjacent pair, so any `None` key raises
TypeError; a shorter list performs no comparison. -/
def sortEntries (l : List Ticker) : Except PyErr (List Ticker) :=
  if 2 ≤ l.length ∧ l.any (fun tk => tk.quoteVolume.isNone) then
    .error .typeError
  else .ok (sortDesc (fun tk => tk.quoteVolume.getD 0) l)

/-- Steps 1–4 of `filter_pairlist`: narrowing, floor, historical override and
the sort, returning the ranked entries together with the (possibly mutated)
snapshot. -/
def rankStage (e : Engine) (pl : List String) (t : Tickers) :
    Except PyErr (List Ticker × Tickers) :=
  match floorFilter e.min_value (narrow pl t) with
  | .error er => .error er
  | .ok floored =>
    match applyTimerange e pl t with
    | .error er => .error er
    | .ok t2 =>
      match sortEntries (floored.map (refresh t2)) with
      | .error er => .error er
      | .ok sorted => .ok (sorted, t2)

/-- Modelled from the spec: `IPairList._whitelist_for_active_markets` (not
under the supplied sources) — Step 5, "keep only symbols the exchange
currently reports as tradable". -/
def whitelist_for_active_markets (e : Engine) (pairs : List String) :
    List String :=
  pairs.filter (fun p => e.exchange.tradable p)

/-- Modelled from the spec: `IPairList.verify_blacklist` (not under the
supplied sources) — Step 6, "remove symbols present on a configured
blacklist". -/
def verify_blacklist (e : Engine) (pairs : List String) : List String :=
  pairs.filter (fun p => !(decide (p ∈ e.blacklist)))

/-- `VolumePairList.filter_pairlist(pairlist, tickers)`, with the mutated
snapshot returned alongside the new whitelist. -/
def filter_pairlist (e : Engine) (pl : List String) (t : Tickers) :
    Except PyErr (List String × Tickers) :=
  match rankStage e pl t with
  | .error er => .error er
  | .ok (sorted, t2) =>
    let pairs := sorted.map (·.symbol)
    let pairs := whitelist_for_active_markets e pairs
    let pairs := verify_blacklist e pairs
    .ok (pairs.take e.number_pairs, t2)

/-! ## gen_pairlist -/

/-- The fresh-pairlist candidates: `[v for k, v in tickers.items() if
get_pair_quote_currency(k) == stake_currency and v[sort_key] is not None]`,
then `[s['symbol'] for s in filtered_tickers]`. -/
def candidates (e : Engine) (t : Tickers) : List String :=
  (t.filter (fun kv => decide (e.exchange.quote kv.1 = e.stake_currency) &&
    kv.2.quoteVolume.isSome)).map (·.2.symbol)

/-- The cache-miss branch of `gen_pairlist`: compute fresh candidates, filter
them, store the result in the cache. -/
def genCompute (e : Engine) (now : Int) (t : Tickers) :
    Except PyErr (List String × Cache × Tickers) :=
  match filter_pairlist e (candidates e t) t with
  | .error er => .error er
  | .ok (res, t2) => .ok (res, cacheSet now res e.refresh_period, t2)

/-- `VolumePairList.gen_pairlist(tickers)`. `pairlist =
self._pair_cache.get('pairlist'); if pairlist: return pairlist` — note the
truthiness test: an expired/absent entry (`None`) **and** a cached empty list
both fall through to recomputation. -/
def gen_pairlist (e : Engine) (c : Cache) (now : Int) (t : Tickers) :
    Except PyErr (List String × Cache × Tickers) :=
  match cacheGet c now with
  | some pl => if pl.isEmpty then genCompute e now t else .ok (pl, c, t)
  | none => genCompute e now t

/-! ## Bybit -/

namespace Bybit

/-- `Bybit.market_is_tradable`: `return market.get('future', False) or
market.get('spot', False)`. -/
def market_is_tradable (m : Market) : Bool :=
  m.future || m.spot

end Bybit

/-- The tradability predicate as the spec words it ("true for spot markets
always, true for futures markets only if the exchange/account configuration
enables futures trading"), written down only to be compared with the source's
`Bybit.market_is_tradable`. -/
def spec_market_is_tradable (futuresEnabled : Bool) (m : Market) : Bool :=
  m.spot || (m.future && futuresEnabled)

/-! ## Observables used to state the invariants -/

/-- Position of the first occurrence of `k` in a list of symbols. -/
def posOf (k : String) : List String → Nat
  | [] => 0
  | x :: xs => if x = k then 0 else posOf k xs + 1

/-- The sort metric a snapshot carries for a symbol (`0` for an absent symbol
or a null metric; only used on symbols known to carry a metric). -/
def snapVol (t : Tickers) (p : String) : Int :=
  match lookupT p t with
  | some tk => tk.quoteVolume.getD 0
  | none => 0

/-- Iteration position of a symbol in the snapshot. -/
def snapIdx (t : Tickers) (p : String) : Nat :=
  posOf p (t.map (·.1))

/-- Descending-sort order with stable tie-breaking: later elements have
no larger key, and equal keys are ordered by the measure `g`. -/
def DRel (key : α → Int) (g : α → Nat) (a b : α) : Prop :=
  key b ≤ key a ∧ (key a = key b → g a < g b)

/-! ## Construction (`VolumePairList.__init__`) -/

/-- The slice of the global bot configuration the constructor reads.
`stake_currency` is a required key of the global configuration (validated by
the surrounding framework's schema before any pairlist is built), so it is a
total field here. -/
structure Config where
  stake_currency : String
  timerange : Option String

/-- `self._pairlistconfig`: the per-pairlist options dict; every key the
constructor reads may be absent. -/
structure PairlistConfig where
  number_assets : Option Nat
  sort_key : Option String
  min_value : Option Int
  refresh_period : Option Int

/-- `VolumePairList.__init__`. The store and the blacklist reach the engine
through collaborators (`self._config['datadir']` and the pairlist manager);
they are passed here directly. Checks in source order: `number_assets`
present, then the optional settings with their defaults, then
`exchange_has('fetchTickers')`, then `_validate_keys(self._sort_key)`. -/
def VolumePairListInit (ex : Exchange) (st : Store) (bl : List String)
    (config : Config) (plc : PairlistConfig) : Except String Engine :=
  match plc.number_assets with
  | none => .error "number_assets not specified. Please check your configuration for pairlist.config.number_assets"
  | some n =>
    let sort_key := plc.sort_key.getD "quoteVolume"
    let min_value := plc.min_value.getD 0
    let refresh_period := plc.refresh_period.getD 1800
    if ex.has_fetchTickers = false then
      .error "Exchange does not support dynamic whitelist. Please edit your config and restart the bot."
    else if (decide (sort_key ∈ SORT_VALUES)) = false then
      .error ("key " ++ sort_key ++ " not in SORT_VALUES")
    else
      .ok { stake_currency := config.stake_currency
            number_pairs := n
            sort_key := sort_key
            min_value := min_value
            refresh_period := refresh_period
            timerange := config.timerange
            exchange := ex
            store := st
            blacklist := bl }

/-! ## Concrete instances used by witnesses and counterexamples -/

/-- A small concrete exchange: USDT-quoted pairs, one BUSD-quoted pair, full
ticker support, a 2021-01-01 daily candle for ETH/USDT, every market
tradable. -/
def wExchange : Exchange :=
  { has_fetchTickers := true
    quote := fun s =>
      if s = "BTC/USDT" then "USDT"
      else if s = "ETH/USDT" then "USDT"
      else if s = "NULL/USDT" then "USDT"
      else if s = "BTC/BUSD" then "BUSD" else ""
    historic := fun p _ => if p = "ETH/USDT" then [⟨1609459200000, 70⟩] else []
    tradable := fun _ => true }

/-- A store holding one daily candle (2021-01-01, volume 50) for BTC/USDT. -/
def wStore : Store :=
  ⟨fun p => if p = "BTC/USDT" then [⟨1609459200, 50⟩] else []⟩

/-- The engine built from `wExchange`/`wStore` with `number_assets = 2` and
all optional settings at their defaults, live mode. -/
def wEngine : Engine :=
  { stake_currency := "USDT", number_pairs := 2, sort_key := "quoteVolume"
    min_value := 0, refresh_period := 1800, timerange := none
    exchange := wExchange, store := wStore, blacklist := [] }

/-- The same engine in replay mode for the single date 2021-01-01. -/
def wEngineR : Engine := { wEngine with timerange := some "20210101" }

/-- A live snapshot: two USDT pairs and one BUSD pair. -/
def wTickers : Tickers :=
  [("BTC/USDT", ⟨"BTC/USDT", some 1000, 0⟩),
   ("ETH/USDT", ⟨"ETH/USDT", some 500, 0⟩),
   ("BTC/BUSD", ⟨"BTC/BUSD", some 9000, 0⟩)]

/-- `wTickers` extended with a USDT-quoted entry whose sort metric is null. -/
def wTickersN : Tickers :=
  wTickers ++ [("NULL/USDT", ⟨"NULL/USDT", none, 0⟩)]

/-- The snapshot `wTickers` after the replay override for 2021-01-01: both
candidates' quote volumes overwritten with the historical values. -/
def wTickersR : Tickers :=
  [("BTC/USDT", ⟨"BTC/USDT", some 50, 0⟩),
   ("ETH/USDT", ⟨"ETH/USDT", some 70, 0⟩),
   ("BTC/BUSD", ⟨"BTC/BUSD", some 9000, 0⟩)]

/-- The ranked entries of the replay run on `wTickers`. -/
def wSortedR : List Ticker :=
  [⟨"ETH/USDT", some 70, 0⟩, ⟨"BTC/USDT", some 50, 0⟩]

/-- The live engine with a minimum-volume floor of 500. -/
def wEngineF : Engine := { wEngine with min_value := 500 }

/-- A global configuration slice for construction tests. -/
def wConfig : Config := ⟨"USDT", none⟩

/-- A pairlist configuration with only `number_assets` set. -/
def wPlc : PairlistConfig := ⟨some 2, none, none, none⟩

/-! ## Lemmas about the stable descending sort -/

theorem insertDesc_perm (key : α → Int) (x : α) (l : List α) :
    List.Perm (insertDesc key x l) (x :: l) := by
  induction l with
  | nil => simp [insertDesc]
  | cons y ys ih =>
    simp only [insertDesc]
    by_cases hc : key x < key y
    · rw [if_pos hc]
      exact (ih.cons y).trans (List.Perm.swap x y ys)
    · rw [if_neg hc]

theorem sortDesc_perm (key : α → Int) (l : List α) :
    List.Perm (sortDesc key l) l := by
  induction l with
  | nil => exact List.Perm.refl _
  | cons x xs ih =>
    exact (insertDesc_perm key x (sortDesc key xs)).trans (ih.cons x)

theorem insertDesc_pairwise {key : α → Int} {g : α → Nat} {x : α}
    {l : List α} (hl : l.Pairwise (DRel key g)) (hx : ∀ y ∈ l, g x < g y) :
    (insertDesc key x l).Pairwise (DRel key g) := by
  induction l with
  | nil => simp [insertDesc, DRel]
  | cons y ys ih =>
    rw [List.pairwise_cons] at hl
    obtain ⟨hy, hys⟩ := hl
    simp only [insertDesc]
    by_cases hcmp : key x < key y
    · rw [if_pos hcmp, List.pairwise_cons]
      refine ⟨?_, ih hys (fun z hz => hx z (List.mem_cons_of_mem _ hz))⟩
      intro b hb
      have hb2 : b = x ∨ b ∈ ys := by
        have := (insertDesc_perm key x ys).subset hb
        simpa using this
      rcases hb2 with rfl | hbys
      · exact ⟨le_of_lt hcmp, fun he => by omega⟩
      · exact hy b hbys
    · rw [if_neg hcmp, List.pairwise_cons]
      refine ⟨?_, List.pairwise_cons.mpr ⟨hy, hys⟩⟩
      intro b hb
      rcases List.mem_cons.mp hb with rfl | hbys
      · exact ⟨not_lt.mp hcmp, fun _ => hx b (List.mem_cons_self _ _)⟩
      · exact ⟨le_trans (hy b hbys).1 (not_lt.mp hcmp),
          fun _ => hx b (List.mem_cons_of_mem _ hbys)⟩

theorem sortDesc_pairwise {key : α → Int} {g : α → Nat} {l : List α}
    (h : l.Pairwise fun a b => g a < g b) :
    (sortDesc key l).Pairwise (DRel key g) := by
  induction l with
  | nil => simp [sortDesc]
  | cons x xs ih =>
    rw [List.pairwise_cons] at h
    obtain ⟨hx, hxs⟩ := h
    exact insertDesc_pairwise (ih hxs)
      (fun y hy => hx y ((sortDesc_perm key xs).subset hy))

/-! ## Lemmas about `posOf` -/

theorem posOf_pairwise_of_nodup {l : List String} (h : l.Nodup) :
    l.Pairwise (fun a b => posOf a l < posOf b l) := by
  induction l with
  | nil => simp
  | cons x xs ih =>
    rw [List.nodup_cons] at h
    obtain ⟨hx, hxs⟩ := h
    rw [List.pairwise_cons]
    constructor
    · intro b hb
      have hbx : x ≠ b := fun he => hx (he ▸ hb)
      simp [posOf, hbx]
    · refine (ih hxs).imp_of_mem ?_
      intro a b ha hb hlt
      have hax : x ≠ a := fun he => hx (he ▸ ha)
      have hbx : x ≠ b := fun he => hx (he ▸ hb)
      simp only [posOf, if_neg hax, if_neg hbx]
      omega

/-! ## Lemmas about `lookupT` -/

theorem lookupT_mem {k : String} {v : Ticker} {t : Tickers}
    (h : lookupT k t = some v) : (k, v) ∈ t := by
  induction t with
  | nil => simp [lookupT] at h
  | cons kv rest ih =>
    by_cases he : kv.1 = k
    · simp only [lookupT, if_pos he] at h
      obtain ⟨k', v'⟩ := kv
      cases h
      cases he
      exact List.mem_cons_self _ _
    · simp only [lookupT, if_neg he] at h
      exact List.mem_cons_of_mem _ (ih h)

theorem mem_lookupT {t : Tickers} (hnd : (t.map (·.1)).Nodup)
    {k : String} {v : Ticker} (h : (k, v) ∈ t) : lookupT k t = some v := by
  induction t with
  | nil => cases h
  | cons kv rest ih =>
    rw [List.map_cons, List.nodup_cons] at hnd
    obtain ⟨hk, hrest⟩ := hnd
    rcases List.mem_cons.mp h with he | hmem
    · rw [← he] at hk ⊢
      simp [lookupT]
    · have hne : kv.1 ≠ k := by
        intro he
        exact hk (he ▸ List.mem_map.mpr ⟨(k, v), hmem, rfl⟩)
      simp only [lookupT, if_neg hne]
      exact ih hrest hmem

theorem lookupT_eq_none_iff {k : String} {t : Tickers} :
    lookupT k t = none ↔ k ∉ t.map (·.1) := by
  induction t with
  | nil => simp [lookupT]
  | cons kv rest ih =>
    by_cases he : kv.1 = k
    · simp [lookupT, he]
    · simp [lookupT, he, ih, Ne.symm he]

theorem lookupT_isSome_of_key {t : Tickers} {k : String}
    (h : k ∈ t.map (·.1)) : ∃ v, lookupT k t = some v := by
  rcases hl : lookupT k t with _ | v
  · exact absurd (lookupT_eq_none_iff.mp hl) (not_not_intro h)
  · exact ⟨v, rfl⟩

theorem lookupT_map {f : String × Ticker → String × Ticker}
    (hf : ∀ kv, (f kv).1 = kv.1) (k : String) (t : Tickers) :
    lookupT k (t.map f) = (lookupT k t).map (fun v => (f (k, v)).2) := by
  induction t with
  | nil => simp [lookupT]
  | cons kv rest ih =>
    obtain ⟨k', v'⟩ := kv
    simp only [List.map_cons, lookupT, hf (k', v')]
    by_cases he : k' = k
    · cases he
      simp
    · simp only [if_neg he]
      exact ih

/-! ## Lemmas about the mutation loops -/

theorem setVolume_ok {t : Tickers} {pair : String} {v : Int} {t2 : Tickers}
    (h : setVolume t pair v = .ok t2) :
    t2 = t.map (fun kv => if kv.1 = pair
        then (kv.1, { kv.2 with quoteVolume := some v }) else kv) ∧
      pair ∈ t.map (·.1) := by
  unfold setVolume at h
  by_cases hc : t.any (fun kv => decide (kv.1 = pair)) = true
  · rw [if_pos hc] at h
    cases h
    refine ⟨rfl, ?_⟩
    obtain ⟨kv, hkv, hdec⟩ := List.any_eq_true.mp hc
    have : kv.1 = pair := of_decide_eq_true hdec
    exact this ▸ List.mem_map.mpr ⟨kv, hkv, rfl⟩
  · rw [if_neg hc] at h
    cases h

theorem setVolume_ok_of {t : Tickers} {pair : String} (v : Int)
    (h : pair ∈ t.map (·.1)) : ∃ t2, setVolume t pair v = .ok t2 := by
  obtain ⟨kv, hkv, hfst⟩ := List.mem_map.mp h
  have hc : t.any (fun kv => decide (kv.1 = pair)) = true :=
    List.any_eq_true.mpr ⟨kv, hkv, decide_eq_true hfst⟩
  exact ⟨_, by rw [setVolume, if_pos hc]⟩

theorem setVolume_error {t : Tickers} {pair : String} {v : Int} {er : PyErr}
    (h : setVolume t pair v = .error er) : er = .keyError := by
  unfold setVolume at h
  by_cases hc : t.any (fun kv => decide (kv.1 = pair)) = true
  · rw [if_pos hc] at h; cases h
  · rw [if_neg hc] at h; cases h; rfl

theorem setVolume_keys {t : Tickers} {pair : String} {v : Int} {t2 : Tickers}
    (h : setVolume t pair v = .ok t2) : t2.map (·.1) = t.map (·.1) := by
  rw [(setVolume_ok h).1, List.map_map]
  refine List.map_congr_left ?_
  intro kv _
  by_cases he : kv.1 = pair <;> simp [he]

theorem setVolumes_ok {r : String → Int} {ps : List String} {t t2 : Tickers}
    (h : setVolumes r ps t = .ok t2) :
    t2 = t.map (fun kv => if kv.1 ∈ ps
        then (kv.1, { kv.2 with quoteVolume := some (r kv.1) }) else kv) ∧
      ∀ p ∈ ps, p ∈ t.map (·.1) := by
  induction ps generalizing t with
  | nil =>
    simp only [setVolumes] at h
    cases h
    constructor
    · simp
    · intro p hp; cases hp
  | cons p ps ih =>
    simp only [setVolumes] at h
    rcases hsv : setVolume t p (r p) with er | t1
    · rw [hsv] at h; cases h
    · rw [hsv] at h
      obtain ⟨ht1, hpk⟩ := setVolume_ok hsv
      obtain ⟨ht2, hall⟩ := ih h
      have hkeys := setVolume_keys hsv
      constructor
      · rw [ht2, ht1, List.map_map]
        refine List.map_congr_left ?_
        intro kv _
        by_cases hp1 : kv.1 = p
        · by_cases hp2 : kv.1 ∈ ps <;>
            simp [Function.comp, hp1, hp2, List.mem_cons]
        · by_cases hp2 : kv.1 ∈ ps <;>
            simp [Function.comp, hp1, hp2, List.mem_cons]
      · intro q hq
        rcases List.mem_cons.mp hq with rfl | hq2
        · exact hpk
        · exact hkeys ▸ hall q hq2

theorem setVolumes_ok_of {r : String → Int} {l : List String} {t : Tickers}
    (h : ∀ p ∈ l, p ∈ t.map (·.1)) :
    ∃ t2, setVolumes r l t = .ok t2 := by
  induction l generalizing t with
  | nil => exact ⟨t, rfl⟩
  | cons p ps ih =>
    obtain ⟨t1, ht1⟩ := setVolume_ok_of (r p) (h p (List.mem_cons_self _ _))
    have hkeys := setVolume_keys ht1
    obtain ⟨t2, ht2⟩ := ih (fun q hq =>
      hkeys ▸ h q (List.mem_cons_of_mem _ hq))
    exact ⟨t2, by rw [setVolumes, ht1]; exact ht2⟩

theorem setVolumes_error {r : String → Int} {ps : List String} {t : Tickers}
    {er : PyErr} (h : setVolumes r ps t = .error er) : er = .keyError := by
  induction ps generalizing t with
  | nil => simp only [setVolumes] at h; cases h
  | cons p ps ih =>
    simp only [setVolumes] at h
    rcases hsv : setVolume t p (r p) with er2 | t1
    · rw [hsv] at h; cases h; exact setVolume_error hsv
    · rw [hsv] at h; exact ih h

/-! ## Lemmas about the filtering stages -/

theorem mem_narrow {pl : List String} {t : Tickers} {kv : String × Ticker} :
    kv ∈ narrow pl t ↔ kv ∈ t ∧ kv.1 ∈ pl := by
  simp [narrow, List.mem_filter]

theorem narrow_sublist (pl : List String) (t : Tickers) :
    (narrow pl t).Sublist t :=
  List.filter_sublist t

theorem floorFilter_nonpos {m : Int} {l : Tickers} (h : ¬ 0 < m) :
    floorFilter m l = .ok l := by
  rw [floorFilter, if_neg h]

theorem floorFilter_pos {m : Int} {l : Tickers} (h0 : 0 < m)
    (hs : ∀ kv ∈ l, kv.2.quoteVolume.isSome = true) :
    floorFilter m l =
      .ok (l.filter (fun kv => decide (m < kv.2.quoteVolume.getD 0))) := by
  have hn : l.any (fun kv => kv.2.quoteVolume.isNone) = false := by
    rw [List.any_eq_false]
    intro kv hkv
    simp [Option.isNone_iff_eq_none]
    exact Option.isSome_iff_exists.mp (hs kv hkv) |>.elim
      (fun v hv => by simp [hv])
  rw [floorFilter, if_pos h0, hn]
  simp

theorem floorFilter_ok_sublist {m : Int} {l fl : Tickers}
    (h : floorFilter m l = .ok fl) : fl.Sublist l := by
  unfold floorFilter at h
  by_cases h0 : 0 < m
  · rw [if_pos h0] at h
    by_cases hn : l.any (fun kv => kv.2.quoteVolume.isNone) = true
    · rw [if_pos hn] at h; cases h
    · rw [if_neg hn] at h
      cases h
      exact List.filter_sublist l
  · rw [if_neg h0] at h
    cases h
    exact List.Sublist.refl l

theorem floorFilter_ok_mem {m : Int} {l fl : Tickers}
    (h : floorFilter m l = .ok fl) (h0 : 0 < m) {kv : String × Ticker}
    (hkv : kv ∈ l) : kv ∈ fl ↔ m < kv.2.quoteVolume.getD 0 := by
  rw [floorFilter, if_pos h0] at h
  by_cases hn : l.any (fun kv => kv.2.quoteVolume.isNone) = true
  · rw [if_pos hn] at h; cases h
  · rw [if_neg hn] at h
    cases h
    simp [List.mem_filter, hkv]

theorem map_keys_of_keypres {f : String × Ticker → String × Ticker}
    (hf : ∀ kv, (f kv).1 = kv.1) (t : Tickers) :
    (t.map f).map (·.1) = t.map (·.1) := by
  rw [List.map_map]
  exact List.map_congr_left (fun kv _ => hf kv)

theorem setVolumes_keys {r : String → Int} {ps : List String} {t t2 : Tickers}
    (h : setVolumes r ps t = .ok t2) : t2.map (·.1) = t.map (·.1) := by
  rw [(setVolumes_ok h).1]
  refine map_keys_of_keypres ?_ t
  intro kv
  by_cases hp : kv.1 ∈ ps <;> simp [hp]

theorem mem_stored_iff {e : Engine} {pl : List String} {tr : TimeRange}
    {p : String} :
    p ∈ pl.filter (fun p => !(loadData e.store p tr).isEmpty) ↔
      p ∈ pl ∧ loadData e.store p tr ≠ [] := by
  simp [List.mem_filter]

theorem replayApply_ok {e : Engine} {pl : List String} {tr : TimeRange}
    {t t2 : Tickers} (h : replayApply e pl tr t = .ok t2) :
    t2 = t.map (fun kv => if kv.1 ∈ pl
        then (kv.1, { kv.2 with quoteVolume := some (ruleValue e tr kv.1) })
        else kv) ∧
      ∀ p ∈ pl, p ∈ t.map (·.1) := by
  unfold replayApply at h
  rcases h1 : setVolumes (fun p => resolveStored tr (loadData e.store p tr))
      (pl.filter (fun p => !(loadData e.store p tr).isEmpty)) t with er | t1
  · rw [h1] at h; cases h
  · rw [h1] at h
    obtain ⟨ht1, hall1⟩ := setVolumes_ok h1
    obtain ⟨ht2, hall2⟩ := setVolumes_ok h
    have hkeys1 := setVolumes_keys h1
    constructor
    · rw [ht2, ht1, List.map_map]
      refine List.map_congr_left ?_
      intro kv _
      simp only [Function.comp]
      by_cases hpl : kv.1 ∈ pl
      · by_cases hld : loadData e.store kv.1 tr = []
        · have hstored : kv.1 ∉ pl.filter
              (fun p => !(loadData e.store p tr).isEmpty) := by
            rw [mem_stored_iff]
            exact fun hc => hc.2 hld
          rw [if_neg hstored, if_pos hpl]
          have hrest2 : kv.1 ∈ pl.filter (fun p =>
              !(decide (p ∈ pl.filter (fun p =>
                !(loadData e.store p tr).isEmpty)))) := by
            rw [List.mem_filter]
            exact ⟨hpl, by simp [hstored]⟩
          rw [if_pos hrest2]
          have : ruleValue e tr kv.1 =
              resolveExchange e.exchange kv.1 (tr.startts * 1000) := by
            rw [ruleValue, hld]
          rw [this]
        · have hstored : kv.1 ∈ pl.filter
              (fun p => !(loadData e.store p tr).isEmpty) :=
            mem_stored_iff.mpr ⟨hpl, hld⟩
          have hrest : kv.1 ∉ pl.filter (fun p =>
              !(decide (p ∈ pl.filter (fun p =>
                !(loadData e.store p tr).isEmpty)))) := by
            rw [List.mem_filter]
            rintro ⟨-, hb⟩
            simp [hstored] at hb
          rw [if_pos hstored, if_neg hrest, if_pos hpl]
          have : ruleValue e tr kv.1 =
              resolveStored tr (loadData e.store kv.1 tr) := by
            rcases hl : loadData e.store kv.1 tr with _ | ⟨c, cs⟩
            · exact absurd hl hld
            · rw [ruleValue, hl]
          rw [this]
      · have hstored : kv.1 ∉ pl.filter
            (fun p => !(loadData e.store p tr).isEmpty) := by
          rw [mem_stored_iff]; exact fun hc => hpl hc.1
        have hrest : kv.1 ∉ pl.filter (fun p =>
            !(decide (p ∈ pl.filter (fun p =>
              !(loadData e.store p tr).isEmpty)))) := by
          rw [List.mem_filter]; exact fun hc => hpl hc.1
        rw [if_neg hstored, if_neg hrest, if_neg hpl]
    · intro p hp
      by_cases hld : loadData e.store p tr = []
      · have : p ∈ pl.filter (fun p =>
            !(decide (p ∈ pl.filter (fun p =>
              !(loadData e.store p tr).isEmpty)))) := by
          rw [List.mem_filter]
          refine ⟨hp, ?_⟩
          have : p ∉ pl.filter (fun p => !(loadData e.store p tr).isEmpty) := by
            rw [mem_stored_iff]; exact fun hc => hc.2 hld
          simp [this]
        exact hkeys1 ▸ hall2 p this
      · exact hall1 p (mem_stored_iff.mpr ⟨hp, hld⟩)

theorem replayApply_ok_of {e : Engine} {pl : List String} {tr : TimeRange}
    {t : Tickers} (h : ∀ p ∈ pl, p ∈ t.map (·.1)) :
    ∃ t2, replayApply e pl tr t = .ok t2 := by
  obtain ⟨t1, ht1⟩ := setVolumes_ok_of
    (r := fun p => resolveStored tr (loadData e.store p tr))
    (t := t) (l := pl.filter (fun p => !(loadData e.store p tr).isEmpty))
    (fun p hp => h p (List.mem_filter.mp hp).1)
  have hkeys := setVolumes_keys ht1
  obtain ⟨t2, ht2⟩ := setVolumes_ok_of
    (r := fun p => resolveExchange e.exchange p (tr.startts * 1000))
    (t := t1) (l := pl.filter (fun p =>
      !(decide (p ∈ pl.filter (fun p => !(loadData e.store p tr).isEmpty)))))
    (fun p hp => hkeys ▸ h p (List.mem_filter.mp hp).1)
  exact ⟨t2, by rw [replayApply, ht1]; exact ht2⟩

theorem replayApply_error {e : Engine} {pl : List String} {tr : TimeRange}
    {t : Tickers} {er : PyErr} (h : replayApply e pl tr t = .error er) :
    er = .keyError := by
  unfold replayApply at h
  rcases h1 : setVolumes (fun p => resolveStored tr (loadData e.store p tr))
      (pl.filter (fun p => !(loadData e.store p tr).isEmpty)) t with er2 | t1
  · rw [h1] at h; cases h; exact setVolumes_error h1
  · rw [h1] at h; exact setVolumes_error h

theorem applyTimerange_none {e : Engine} {pl : List String} {t : Tickers}
    (h : e.timerange = none) : applyTimerange e pl t = .ok t := by
  simp [applyTimerange, h]

theorem applyTimerange_some {e : Engine} {pl : List String} {t : Tickers}
    {s : String} {tr : TimeRange} (hs : e.timerange = some s)
    (htr : replayTimerange s = some tr) :
    applyTimerange e pl t = replayApply e pl tr t := by
  simp [applyTimerange, hs, htr]

theorem applyTimerange_ok_cases {e : Engine} {pl : List String}
    {t t2 : Tickers} (h : applyTimerange e pl t = .ok t2) :
    (e.timerange = none ∧ t2 = t) ∨
      (∃ s tr, e.timerange = some s ∧ replayTimerange s = some tr ∧
        replayApply e pl tr t = .ok t2) := by
  rcases hs : e.timerange with _ | s
  · rw [applyTimerange_none hs] at h
    cases h
    exact Or.inl ⟨rfl, rfl⟩
  · rcases htr : replayTimerange s with _ | tr
    · have he : applyTimerange e pl t = .error .parseError := by
        simp [applyTimerange, hs, htr]
      rw [he] at h
      cases h
    · rw [applyTimerange_some hs htr] at h
      exact Or.inr ⟨s, tr, rfl, htr, h⟩

theorem applyTimerange_keys {e : Engine} {pl : List String} {t t2 : Tickers}
    (h : applyTimerange e pl t = .ok t2) : t2.map (·.1) = t.map (·.1) := by
  rcases applyTimerange_ok_cases h with ⟨-, rfl⟩ | ⟨s, tr, -, -, hra⟩
  · rfl
  · rw [(replayApply_ok hra).1]
    refine map_keys_of_keypres ?_ t
    intro kv
    by_cases hp : kv.1 ∈ pl <;> simp [hp]

theorem applyTimerange_WF {e : Engine} {pl : List String} {t t2 : Tickers}
    (h : applyTimerange e pl t = .ok t2) (hw : WF t) : WF t2 := by
  refine ⟨applyTimerange_keys h ▸ hw.1, ?_⟩
  rcases applyTimerange_ok_cases h with ⟨-, rfl⟩ | ⟨s, tr, -, -, hra⟩
  · exact hw.2
  · rw [(replayApply_ok hra).1]
    intro kv hkv
    obtain ⟨kw, hkw, hkveq⟩ := List.mem_map.mp hkv
    subst hkveq
    by_cases hp : kw.1 ∈ pl <;> simp [hp, hw.2 kw hkw]

theorem sortEntries_ok_of {l : List Ticker}
    (h : ∀ tk ∈ l, tk.quoteVolume.isSome = true) :
    sortEntries l = .ok (sortDesc (fun tk => tk.quoteVolume.getD 0) l) := by
  rw [sortEntries, if_neg]
  rintro ⟨-, hany⟩
  obtain ⟨tk, htk, hnone⟩ := List.any_eq_true.mp hany
  have hsome := h tk htk
  rw [Option.isNone_iff_eq_none] at hnone
  rw [hnone] at hsome
  simp at hsome

theorem sortEntries_ok_elim {l l2 : List Ticker}
    (h : sortEntries l = .ok l2) :
    l2 = sortDesc (fun tk => tk.quoteVolume.getD 0) l := by
  unfold sortEntries at h
  by_cases hc : 2 ≤ l.length ∧ l.any (fun tk => tk.quoteVolume.isNone) = true
  · rw [if_pos hc] at h; cases h
  · rw [if_neg hc] at h; cases h; rfl

theorem rankStage_ok {e : Engine} {pl : List String} {t : Tickers}
    {sorted : List Ticker} {t2 : Tickers}
    (h : rankStage e pl t = .ok (sorted, t2)) :
    ∃ fl, floorFilter e.min_value (narrow pl t) = .ok fl ∧
      applyTimerange e pl t = .ok t2 ∧
      sortEntries (fl.map (refresh t2)) = .ok sorted := by
  unfold rankStage at h
  rcases h1 : floorFilter e.min_value (narrow pl t) with er | fl
  · rw [h1] at h
    simp at h
  · simp only [h1] at h
    rcases h2 : applyTimerange e pl t with er | t3
    · rw [h2] at h
      simp at h
    · simp only [h2] at h
      rcases h3 : sortEntries (fl.map (refresh t3)) with er | sorted2
      · rw [h3] at h
        simp at h
      · simp only [h3, Except.ok.injEq, Prod.mk.injEq] at h
        obtain ⟨hs, ht⟩ := h
        subst hs
        subst ht
        exact ⟨fl, rfl, rfl, h3⟩

theorem filter_pairlist_ok {e : Engine} {pl : List String} {t : Tickers}
    {res : List String} {t2 : Tickers}
    (h : filter_pairlist e pl t = .ok (res, t2)) :
    ∃ sorted, rankStage e pl t = .ok (sorted, t2) ∧
      res = (verify_blacklist e (whitelist_for_active_markets e
        (sorted.map (·.symbol)))).take e.number_pairs := by
  unfold filter_pairlist at h
  rcases h1 : rankStage e pl t with er | st
  · rw [h1] at h
    simp at h
  · obtain ⟨sorted2, t3⟩ := st
    simp only [h1, Except.ok.injEq, Prod.mk.injEq] at h
    obtain ⟨hres, ht⟩ := h
    subst ht
    exact ⟨sorted2, rfl, hres.symm⟩

theorem mem_candidates {e : Engine} {t : Tickers} {p : String} :
    p ∈ candidates e t ↔ ∃ kv, kv ∈ t ∧ kv.2.symbol = p ∧
      e.exchange.quote kv.1 = e.stake_currency ∧
      kv.2.quoteVolume.isSome = true := by
  constructor
  · intro h
    obtain ⟨kv, hkv, hsym⟩ := List.mem_map.mp h
    have hf := List.mem_filter.mp hkv
    have hcond := hf.2
    simp only [Bool.and_eq_true, decide_eq_true_eq] at hcond
    exact ⟨kv, hf.1, hsym, hcond.1, hcond.2⟩
  · rintro ⟨kv, hkv, hsym, hq, hs⟩
    exact List.mem_map.mpr
      ⟨kv, List.mem_filter.mpr ⟨hkv, by simp [hq, hs]⟩, hsym⟩

theorem candidates_key_spec {e : Engine} {t : Tickers} (hw : WF t)
    {kv : String × Ticker} (hkv : kv ∈ t) (hc : kv.1 ∈ candidates e t) :
    e.exchange.quote kv.1 = e.stake_currency ∧
      kv.2.quoteVolume.isSome = true := by
  obtain ⟨kw, hkw, hsym, hq, hs⟩ := mem_candidates.mp hc
  have hkey : kw.1 = kv.1 := (hw.2 kw hkw) ▸ hsym
  have h1 : lookupT kv.1 t = some kw.2 := by
    rw [← hkey]
    exact mem_lookupT hw.1 hkw
  have h2 : lookupT kv.1 t = some kv.2 := mem_lookupT hw.1 hkv
  have hv : kw.2 = kv.2 := by
    rw [h1] at h2
    exact Option.some.inj h2
  exact ⟨hkey ▸ hq, hv ▸ hs⟩

theorem gen_pairlist_miss {e : Engine} {c : Cache} {now : Int} {t : Tickers}
    (h : cacheGet c now = none ∨ cacheGet c now = some []) :
    gen_pairlist e c now t = genCompute e now t := by
  rcases h with h | h <;> simp [gen_pairlist, h]

theorem gen_pairlist_hit {e : Engine} {c : Cache} {now : Int} {t : Tickers}
    {pl : List String} (h : cacheGet c now = some pl) (hne : pl ≠ []) :
    gen_pairlist e c now t = .ok (pl, c, t) := by
  simp only [gen_pairlist, h]
  rw [if_neg (by simpa [List.isEmpty_iff] using hne)]

theorem genCompute_ok {e : Engine} {now : Int} {t : Tickers}
    {res : List String} {c2 : Cache} {t2 : Tickers}
    (h : genCompute e now t = .ok (res, c2, t2)) :
    filter_pairlist e (candidates e t) t = .ok (res, t2) ∧
      c2 = cacheSet now res e.refresh_period := by
  unfold genCompute at h
  rcases h1 : filter_pairlist e (candidates e t) t with er | rt
  · rw [h1] at h
    simp at h
  · obtain ⟨res2, t3⟩ := rt
    simp only [h1, Except.ok.injEq, Prod.mk.injEq] at h
    obtain ⟨h2, h3, h4⟩ := h
    subst h2
    subst h4
    exact ⟨rfl, h3.symm⟩

/-! ## Entries kept for the sort -/

theorem fl_entry_spec {e : Engine} {pl : List String} {t t2 fl : Tickers}
    (hw : WF t) (hfl : floorFilter e.min_value (narrow pl t) = .ok fl)
    (hap : applyTimerange e pl t = .ok t2) {kv : String × Ticker}
    (hkv : kv ∈ fl) :
    ∃ v, lookupT kv.1 t2 = some v ∧ refresh t2 kv = v ∧ v.symbol = kv.1 ∧
      kv ∈ t ∧ kv.1 ∈ pl := by
  have hnar : kv ∈ narrow pl t := (floorFilter_ok_sublist hfl).subset hkv
  obtain ⟨hkvt, hkvpl⟩ := mem_narrow.mp hnar
  have hkey : kv.1 ∈ t.map (·.1) := List.mem_map.mpr ⟨kv, hkvt, rfl⟩
  have hkey2 : kv.1 ∈ t2.map (·.1) := (applyTimerange_keys hap) ▸ hkey
  obtain ⟨v, hv⟩ := lookupT_isSome_of_key hkey2
  have hw2 := applyTimerange_WF hap hw
  refine ⟨v, hv, ?_, hw2.2 _ (lookupT_mem hv), hkvt, hkvpl⟩
  simp [refresh, hv]

theorem applyTimerange_lookup {e : Engine} {pl : List String} {t t2 : Tickers}
    (hap : applyTimerange e pl t = .ok t2) {s : String} {tr : TimeRange}
    (hs : e.timerange = some s) (htr : replayTimerange s = some tr)
    (k : String) :
    lookupT k t2 = (lookupT k t).map (fun v => if k ∈ pl
      then { v with quoteVolume := some (ruleValue e tr k) } else v) := by
  rcases applyTimerange_ok_cases hap with ⟨hnone, -⟩ | ⟨s2, tr2, hs2, htr2, hra⟩
  · rw [hs] at hnone; cases hnone
  · rw [hs] at hs2
    cases hs2
    rw [htr] at htr2
    cases htr2
    rw [(replayApply_ok hra).1]
    rw [lookupT_map (f := fun kv => if kv.1 ∈ pl
      then (kv.1, { kv.2 with quoteVolume := some (ruleValue e tr kv.1) })
      else kv) (fun kv => by by_cases hp : kv.1 ∈ pl <;> simp [hp])]
    rcases lookupT k t with _ | v
    · rfl
    · by_cases hp : k ∈ pl <;> simp [hp]

theorem fl_entry_vol {e : Engine} {t t2 fl : Tickers} (hw : WF t)
    (hfl : floorFilter e.min_value (narrow (candidates e t) t) = .ok fl)
    (hap : applyTimerange e (candidates e t) t = .ok t2)
    {kv : String × Ticker} (hkv : kv ∈ fl) :
    (refresh t2 kv).quoteVolume.isSome = true := by
  obtain ⟨v, hv, hre, hsym, hkvt, hkvpl⟩ := fl_entry_spec hw hfl hap hkv
  rw [hre]
  have hold : lookupT kv.1 t = some kv.2 := by
    have : kv = (kv.1, kv.2) := rfl
    exact mem_lookupT hw.1 (this ▸ hkvt)
  rcases applyTimerange_ok_cases hap with ⟨-, rfl⟩ | ⟨s, tr, hs, htr, -⟩
  · rw [hold] at hv
    cases hv
    exact (candidates_key_spec hw hkvt hkvpl).2
  · rw [applyTimerange_lookup hap hs htr kv.1, hold] at hv
    simp only [Option.map_some, if_pos hkvpl] at hv
    cases hv
    simp

theorem mem_res_spec {e : Engine} {pl : List String} {t : Tickers}
    {res : List String} {t2 : Tickers} (hw : WF t)
    (h : filter_pairlist e pl t = .ok (res, t2)) {p : String} (hp : p ∈ res) :
    ∃ fl kv v, floorFilter e.min_value (narrow pl t) = .ok fl ∧ kv ∈ fl ∧
      kv ∈ t ∧ kv.1 ∈ pl ∧ p = kv.1 ∧ lookupT kv.1 t2 = some v := by
  obtain ⟨sorted, hrank, hres⟩ := filter_pairlist_ok h
  obtain ⟨fl, hfl, hap, hsort⟩ := rankStage_ok hrank
  have hsub : res.Sublist (sorted.map (·.symbol)) := by
    rw [hres]
    exact (List.take_sublist _ _).trans
      ((List.filter_sublist _).trans (List.filter_sublist _))
  have hp2 : p ∈ sorted.map (·.symbol) := hsub.subset hp
  obtain ⟨x, hx, hxp⟩ := List.mem_map.mp hp2
  have hxe : x ∈ fl.map (refresh t2) := by
    have := sortEntries_ok_elim hsort
    exact (this ▸ sortDesc_perm _ _ : List.Perm sorted _).subset hx
  obtain ⟨kv, hkv, hkvx⟩ := List.mem_map.mp hxe
  obtain ⟨v, hv, hre, hsym, hkvt, hkvpl⟩ := fl_entry_spec hw hfl hap hkv
  refine ⟨fl, kv, v, hfl, hkv, hkvt, hkvpl, ?_, hv⟩
  rw [← hxp, ← hkvx, hre, hsym]

theorem genCompute_invariants {e : Engine} {now : Int} {t : Tickers}
    {res : List String} {c2 : Cache} {t2 : Tickers} (hw : WF t)
    (h : genCompute e now t = .ok (res, c2, t2)) :
    res.length ≤ e.number_pairs ∧ res.Nodup ∧
      (∀ p ∈ res, e.exchange.quote p = e.stake_currency) ∧
      res.Pairwise (fun a b => snapVol t2 b ≤ snapVol t2 a ∧
        (snapVol t2 a = snapVol t2 b → snapIdx t a < snapIdx t b)) := by
  obtain ⟨hfp, -⟩ := genCompute_ok h
  obtain ⟨sorted, hrank, hres⟩ := filter_pairlist_ok hfp
  obtain ⟨fl, hfl, hap, hsort⟩ := rankStage_ok hrank
  have hsorted_eq := sortEntries_ok_elim hsort
  have hperm : List.Perm sorted (fl.map (refresh t2)) :=
    hsorted_eq ▸ sortDesc_perm _ _
  have hsub : res.Sublist (sorted.map (·.symbol)) := by
    rw [hres]
    exact (List.take_sublist _ _).trans
      ((List.filter_sublist _).trans (List.filter_sublist _))
  have hsym_eq : (fl.map (refresh t2)).map (·.symbol) = fl.map (·.1) := by
    rw [List.map_map]
    refine List.map_congr_left ?_
    intro kv hkv
    obtain ⟨v, hv, hre, hsym, -, -⟩ := fl_entry_spec hw hfl hap hkv
    simp [Function.comp, hre, hsym]
  have hfl_fst : (fl.map (·.1)).Sublist (t.map (·.1)) :=
    ((floorFilter_ok_sublist hfl).trans (narrow_sublist _ t)).map _
  have hnodup_sym : (sorted.map (·.symbol)).Nodup := by
    rw [(hperm.map (·.symbol)).nodup_iff, hsym_eq]
    exact hw.1.sublist hfl_fst
  refine ⟨?_, hnodup_sym.sublist hsub, ?_, ?_⟩
  · rw [hres]
    exact List.length_take_le _ _
  · intro p hp
    obtain ⟨fl2, kv, v, -, -, hkvt, hkvpl, rfl, -⟩ := mem_res_spec hw hfp hp
    exact (candidates_key_spec hw hkvt hkvpl).1
  · have hkeyeq : ∀ x ∈ sorted, snapVol t2 x.symbol = x.quoteVolume.getD 0 ∧
        x.symbol ∈ t.map (·.1) := by
      intro x hx
      obtain ⟨kv, hkv, hkvx⟩ := List.mem_map.mp (hperm.subset hx)
      obtain ⟨v, hv, hre, hsym, hkvt, -⟩ := fl_entry_spec hw hfl hap hkv
      rw [← hkvx, hre]
      constructor
      · simp [snapVol, hsym, hv]
      · rw [hsym]
        exact List.mem_map.mpr ⟨kv, hkvt, rfl⟩
    have hentries : (fl.map (refresh t2)).Pairwise
        (fun a b => snapIdx t a.symbol < snapIdx t b.symbol) := by
      rw [List.pairwise_map]
      have hpos : (fl.map (·.1)).Pairwise
          (fun a b => posOf a (t.map (·.1)) < posOf b (t.map (·.1))) :=
        (posOf_pairwise_of_nodup hw.1).sublist hfl_fst
      have h2 := List.pairwise_map.mp hpos
      refine h2.imp_of_mem ?_
      intro a b ha hb hlt
      obtain ⟨v, hv, hre, hsym, -, -⟩ := fl_entry_spec hw hfl hap ha
      obtain ⟨w, hw2, hre2, hsym2, -, -⟩ := fl_entry_spec hw hfl hap hb
      simp only [snapIdx, hre, hre2, hsym, hsym2]
      exact hlt
    have hsorted_pw : sorted.Pairwise
        (DRel (fun tk => tk.quoteVolume.getD 0)
          (fun tk => snapIdx t tk.symbol)) :=
      hsorted_eq ▸ sortDesc_pairwise hentries
    have hsym_pw : (sorted.map (·.symbol)).Pairwise
        (fun a b => snapVol t2 b ≤ snapVol t2 a ∧
          (snapVol t2 a = snapVol t2 b → snapIdx t a < snapIdx t b)) := by
      rw [List.pairwise_map]
      refine hsorted_pw.imp_of_mem ?_
      intro x y hx hy hD
      obtain ⟨hvx, -⟩ := hkeyeq x hx
      obtain ⟨hvy, -⟩ := hkeyeq y hy
      rw [hvx, hvy]
      exact hD
    exact hsym_pw.sublist hsub

/-! ## Completion of the pipeline -/

theorem genCompute_ok_of {e : Engine} (now : Int) {t : Tickers} (hw : WF t)
    (hpar : e.timerange = none ∨ ∃ s tr, e.timerange = some s ∧
      replayTimerange s = some tr) :
    ∃ res t2, genCompute e now t =
      .ok (res, cacheSet now res e.refresh_period, t2) := by
  have hnar : ∀ kv ∈ narrow (candidates e t) t,
      kv.2.quoteVolume.isSome = true := by
    intro kv hkv
    obtain ⟨hkvt, hkvpl⟩ := mem_narrow.mp hkv
    exact (candidates_key_spec hw hkvt hkvpl).2
  obtain ⟨fl, hfl⟩ :
      ∃ fl, floorFilter e.min_value (narrow (candidates e t) t) = .ok fl := by
    by_cases h0 : 0 < e.min_value
    · exact ⟨_, floorFilter_pos h0 hnar⟩
    · exact ⟨_, floorFilter_nonpos h0⟩
  obtain ⟨t2, hap⟩ : ∃ t2, applyTimerange e (candidates e t) t = .ok t2 := by
    rcases hpar with h | ⟨s, tr, hs, htr⟩
    · exact ⟨t, applyTimerange_none h⟩
    · rw [applyTimerange_some hs htr]
      refine replayApply_ok_of ?_
      intro p hp
      obtain ⟨kw, hkw, hsym, -, -⟩ := mem_candidates.mp hp
      have hkp : kw.1 = p := by rw [← hw.2 kw hkw]; exact hsym
      exact List.mem_map.mpr ⟨kw, hkw, hkp⟩
  have hsome : ∀ tk ∈ fl.map (refresh t2), tk.quoteVolume.isSome = true := by
    intro tk htk
    obtain ⟨kv, hkv, rfl⟩ := List.mem_map.mp htk
    exact fl_entry_vol hw hfl hap hkv
  have hsort := sortEntries_ok_of hsome
  have hrank : rankStage e (candidates e t) t =
      .ok (sortDesc (fun tk => tk.quoteVolume.getD 0)
        (fl.map (refresh t2)), t2) := by
    simp only [rankStage, hfl, hap, hsort]
  have hfilter : filter_pairlist e (candidates e t) t =
      .ok ((verify_blacklist e (whitelist_for_active_markets e
        ((sortDesc (fun tk => tk.quoteVolume.getD 0)
          (fl.map (refresh t2))).map (·.symbol)))).take e.number_pairs, t2) := by
    simp only [filter_pairlist, hrank]
  refine ⟨(verify_blacklist e (whitelist_for_active_markets e
    ((sortDesc (fun tk => tk.quoteVolume.getD 0)
      (fl.map (refresh t2))).map (·.symbol)))).take e.number_pairs, t2, ?_⟩
  simp only [genCompute, hfilter]

theorem fl_entry_vol2 {e : Engine} {pl : List String} {t t2 fl : Tickers}
    (hw : WF t) (hfl : floorFilter e.min_value (narrow pl t) = .ok fl)
    (hap : applyTimerange e pl t = .ok t2) {kv : String × Ticker}
    (hkv : kv ∈ fl) (hnn : ∀ kv ∈ t, kv.2.quoteVolume.isSome = true) :
    (refresh t2 kv).quoteVolume.isSome = true := by
  obtain ⟨v, hv, hre, hsym, hkvt, hkvpl⟩ := fl_entry_spec hw hfl hap hkv
  rw [hre]
  have hold : lookupT kv.1 t = some kv.2 := mem_lookupT hw.1 hkvt
  rcases applyTimerange_ok_cases hap with ⟨-, rfl⟩ | ⟨s, tr, hs, htr, -⟩
  · rw [hold] at hv
    cases hv
    exact hnn kv hkvt
  · rw [applyTimerange_lookup hap hs htr kv.1, hold] at hv
    simp only [Option.map_some, if_pos hkvpl] at hv
    cases hv
    simp

theorem filter_pairlist_live_ok {e : Engine} {pl : List String} {t : Tickers}
    (hw : WF t) (hnone : e.timerange = none)
    (hnn : ∀ kv ∈ t, kv.2.quoteVolume.isSome = true) :
    ∃ res, filter_pairlist e pl t = .ok (res, t) ∧
      ∀ p ∈ res, p ∈ t.map (·.1) := by
  have hnar : ∀ kv ∈ narrow pl t, kv.2.quoteVolume.isSome = true :=
    fun kv hkv => hnn kv ((narrow_sublist pl t).subset hkv)
  obtain ⟨fl, hfl⟩ : ∃ fl, floorFilter e.min_value (narrow pl t) = .ok fl := by
    by_cases h0 : 0 < e.min_value
    · exact ⟨_, floorFilter_pos h0 hnar⟩
    · exact ⟨_, floorFilter_nonpos h0⟩
  have hap : applyTimerange e pl t = .ok t := applyTimerange_none hnone
  have hsome : ∀ tk ∈ fl.map (refresh t), tk.quoteVolume.isSome = true := by
    intro tk htk
    obtain ⟨kv, hkv, rfl⟩ := List.mem_map.mp htk
    exact fl_entry_vol2 hw hfl hap hkv hnn
  have hsort := sortEntries_ok_of hsome
  have hrank : rankStage e pl t =
      .ok (sortDesc (fun tk => tk.quoteVolume.getD 0)
        (fl.map (refresh t)), t) := by
    simp only [rankStage, hfl, hap, hsort]
  have hfp : filter_pairlist e pl t =
      .ok ((verify_blacklist e (whitelist_for_active_markets e
        ((sortDesc (fun tk => tk.quoteVolume.getD 0)
          (fl.map (refresh t))).map (·.symbol)))).take e.number_pairs, t) := by
    simp only [filter_pairlist, hrank]
  refine ⟨_, hfp, ?_⟩
  intro p hp
  obtain ⟨fl2, kv, v, -, -, hkvt, -, rfl, -⟩ := mem_res_spec hw hfp hp
  exact List.mem_map.mpr ⟨kv, hkvt, rfl⟩

theorem filter_pairlist_replay_keyError {e : Engine} {pl : List String}
    {t : Tickers} {s : String} {tr : TimeRange} {p : String}
    (hs : e.timerange = some s) (htr : replayTimerange s = some tr)
    (hp : p ∈ pl) (hmiss : p ∉ t.map (·.1))
    (hfl : ∃ fl, floorFilter e.min_value (narrow pl t) = .ok fl) :
    filter_pairlist e pl t = .error .keyError := by
  obtain ⟨fl, hfl⟩ := hfl
  have hap : applyTimerange e pl t = .error .keyError := by
    rw [applyTimerange_some hs htr]
    rcases hra : replayApply e pl tr t with er | t2
    · have := replayApply_error hra
      subst this
      rfl
    · exact absurd ((replayApply_ok hra).2 p hp) hmiss
  simp only [filter_pairlist, rankStage, hfl, hap]

theorem floor_excluded {e : Engine} {pl : List String} {t : Tickers}
    {res : List String} {t2 : Tickers} {p : String} {tk : Ticker} {m0 : Int}
    (hw : WF t) (h : filter_pairlist e pl t = .ok (res, t2))
    (hlk : lookupT p t = some tk) (hm : tk.quoteVolume = some m0)
    (h0 : 0 < e.min_value) (heq : m0 = e.min_value) : p ∉ res := by
  intro hp
  obtain ⟨fl, kv, v, hfl, hkfl, hkvt, hkvpl, rfl, -⟩ := mem_res_spec hw h hp
  have h2 : lookupT kv.1 t = some kv.2 := mem_lookupT hw.1 hkvt
  rw [hlk] at h2
  have htk : tk = kv.2 := Option.some.inj h2
  have hmem := (floorFilter_ok_mem hfl h0
    (mem_narrow.mpr ⟨hkvt, hkvpl⟩)).mp hkfl
  rw [← htk, hm] at hmem
  simp at hmem
  omega

/-! ## Claims -/

/-- C4 (code_bug evidence): the replay window derivation. `TimeRange` fields
are epoch seconds, yet `timerange.stopts += 24*60*60*1000` adds the literal
86 400 000 — i.e. 1000 days, not the one day (86 400 s) the spec intends —
and it does so unconditionally, also for an explicit two-date range. For the
single date 2021-01-01 the parsed window is `[1609459200, 1609459200]` and
the widened stop is `1609459200 + 86400000 = 1695859200` (2023-09-28); for
the explicit range 2021-01-01..2021-01-03 the stop `1609632000` is widened
just the same. The start, multiplied by 1000, is what the exchange fallback
compares against (`since_ms`), while the store path compares the start in
seconds. -/
theorem C4_stop_widening :
    replayTimerange "20210101" =
      some ⟨1609459200, 1609459200 + 86400000⟩ ∧
    replayTimerange "20210101-20210103" =
      some ⟨1609459200, 1609632000 + 86400000⟩ ∧
    (86400000 : Int) = 1000 * 86400 := by
  refine ⟨by decide, by decide, by decide⟩

/-- C9 (counterexample): a pure-futures market (`future=True, spot=False`) is
reported tradable by `Bybit.market_is_tradable`, while the spec's predicate —
"true for futures markets only if the configuration enables futures trading" —
reports it untradable when futures are not enabled. The source predicate takes
no configuration input at all. -/
theorem C9_counterexample :
    Bybit.market_is_tradable ⟨true, false⟩ = true ∧
      spec_market_is_tradable false ⟨true, false⟩ = false := by
  decide

/-- C9 (amended): `Bybit.market_is_tradable` returns true exactly for markets
that are spot or futures; futures markets are tradable unconditionally — no
exchange/account configuration is consulted. -/
theorem C9_market_is_tradable (m : Market) :
    Bybit.market_is_tradable m = true ↔ m.spot = true ∨ m.future = true := by
  obtain ⟨f, s⟩ := m
  cases f <;> cases s <;> decide

/-- C8: construction fails exactly when `number_assets` is absent, the
exchange lacks `fetchTickers`, or the (defaulted) sort key is outside
`SORT_VALUES`; on success the engine carries the configured values with
defaults `min_value = 0`, `refresh_period = 1800`,
`sort_key = "quoteVolume"`. -/
theorem C8_construction (ex : Exchange) (st : Store) (bl : List String)
    (config : Config) (plc : PairlistConfig) :
    ((∃ msg, VolumePairListInit ex st bl config plc = .error msg) ↔
      (plc.number_assets = none ∨ ex.has_fetchTickers = false ∨
        plc.sort_key.getD "quoteVolume" ∉ SORT_VALUES)) ∧
    ∀ eng, VolumePairListInit ex st bl config plc = .ok eng →
      eng.stake_currency = config.stake_currency ∧
      some eng.number_pairs = plc.number_assets ∧
      eng.sort_key = plc.sort_key.getD "quoteVolume" ∧
      eng.min_value = plc.min_value.getD 0 ∧
      eng.refresh_period = plc.refresh_period.getD 1800 ∧
      eng.timerange = config.timerange := by
  rcases hna : plc.number_assets with _ | n
  · simp [VolumePairListInit, hna]
  · by_cases hex : ex.has_fetchTickers = false
    · simp [VolumePairListInit, hna, hex]
    · by_cases hsk : plc.sort_key.getD "quoteVolume" ∈ SORT_VALUES
      · constructor
        · simp [VolumePairListInit, hna, hex, hsk]
        · intro eng heng
          simp only [VolumePairListInit, hna, hex, hsk] at heng
          simp only [if_neg, Bool.false_eq_true, decide_eq_false_iff_not,
            not_not, decide_True, if_false] at heng
          rw [if_neg (by simp [hex]), if_neg (by simp [hsk])] at heng
          cases heng
          simp [hna]
      · simp [VolumePairListInit, hna, hex, hsk]

/-- C8 witness: a configuration with only `number_assets = 2` set constructs
`wEngine`, with the three defaults applied and no error possible. -/
theorem C8_witness :
    wEngine.stake_currency = wConfig.stake_currency ∧
    some wEngine.number_pairs = wPlc.number_assets ∧
    wEngine.sort_key = wPlc.sort_key.getD "quoteVolume" ∧
    wEngine.min_value = wPlc.min_value.getD 0 ∧
    wEngine.refresh_period = wPlc.refresh_period.getD 1800 ∧
    ¬ ∃ msg, VolumePairListInit wExchange wStore [] wConfig wPlc =
      .error msg := by
  have h := C8_construction wExchange wStore [] wConfig wPlc
  obtain ⟨h1, h2, h3, h4, h5, h6⟩ := h.2 wEngine rfl
  refine ⟨h1, h2, h3, h4, h5, ?_⟩
  rw [h.1]
  decide

/-- C2 (counterexample): a cached empty list defeats the short-circuit. The
first computation on an empty snapshot stores `[]`; a second call 10 s later
(well inside the 1800 s window, cache state unchanged) falls into the
recomputation branch because `if pairlist:` is false for `[]`: with the same
snapshot it re-runs the pipeline and re-stamps the cache (expiry 1810, not
1800), and with a fresh snapshot it returns a non-empty list instead of the
cached `[]` — not the cached value verbatim. -/
theorem C2_counterexample :
    gen_pairlist wEngine ⟨none⟩ 0 [] = .ok ([], ⟨some ([], 1800)⟩, []) ∧
    cacheGet ⟨some ([], 1800)⟩ 10 = some [] ∧
    gen_pairlist wEngine ⟨some ([], 1800)⟩ 10 [] =
      .ok ([], ⟨some ([], 1810)⟩, []) ∧
    gen_pairlist wEngine ⟨some ([], 1800)⟩ 10 wTickers =
      .ok (["BTC/USDT", "ETH/USDT"],
        ⟨some (["BTC/USDT", "ETH/USDT"], 1810)⟩, wTickers) := by
  refine ⟨by decide, by decide, by decide, by decide⟩

/-- C2 (amended): after a recomputation stores a **non-empty** list, every
call strictly before the stored expiry returns that list verbatim with the
cache untouched, whatever snapshot the second call receives (no
recomputation); a cached empty list is treated as a miss instead. -/
theorem C2_cache_short_circuit {e : Engine} {c : Cache} {now : Int}
    {t : Tickers} {res : List String} {c2 : Cache} {t2 : Tickers}
    (hmiss : cacheGet c now = none ∨ cacheGet c now = some [])
    (h : gen_pairlist e c now t = .ok (res, c2, t2))
    (hne : res ≠ []) {now2 : Int} (hwin : now2 < now + e.refresh_period) :
    ∀ t3, gen_pairlist e c2 now2 t3 = .ok (res, c2, t3) := by
  intro t3
  rw [gen_pairlist_miss hmiss] at h
  obtain ⟨-, hc2⟩ := genCompute_ok h
  subst hc2
  exact gen_pairlist_hit (by simp [cacheGet, cacheSet, hwin]) hne

/-- C2 witness: the list computed at time 0 is returned verbatim at time 100
even against an empty snapshot, with the cache state unchanged. -/
theorem C2_witness :
    gen_pairlist wEngine ⟨some (["BTC/USDT", "ETH/USDT"], 1800)⟩ 100 [] =
      .ok (["BTC/USDT", "ETH/USDT"],
        ⟨some (["BTC/USDT", "ETH/USDT"], 1800)⟩, []) :=
  C2_cache_short_circuit
    (Or.inl (show cacheGet ⟨none⟩ (0 : Int) = none from rfl))
    (show gen_pairlist wEngine ⟨none⟩ 0 wTickers =
      .ok (["BTC/USDT", "ETH/USDT"],
        ⟨some (["BTC/USDT", "ETH/USDT"], 1800)⟩, wTickers) by decide)
    (by decide) (by decide) []

/-- C5: the minimum-volume floor. With `min_value = 0` the floor step is the
identity; with `min_value > 0` an entry survives the floor exactly when its
metric is strictly greater, an entry whose metric equals the floor never
reaches the final whitelist, and entries strictly above pass the floor
stage. -/
theorem C5_volume_floor {e : Engine} {pl : List String} {t : Tickers}
    (hw : WF t) (hnn : ∀ kv ∈ t, kv.2.quoteVolume.isSome = true)
    {p : String} {tk : Ticker} {m0 : Int}
    (hlk : lookupT p t = some tk) (hm : tk.quoteVolume = some m0) :
    (e.min_value = 0 →
      floorFilter e.min_value (narrow pl t) = .ok (narrow pl t)) ∧
    (0 < e.min_value →
      ∃ fl, floorFilter e.min_value (narrow pl t) = .ok fl ∧
        ((p, tk) ∈ fl ↔ p ∈ pl ∧ e.min_value < m0) ∧
        (m0 = e.min_value →
          ∀ res t2, filter_pairlist e pl t = .ok (res, t2) → p ∉ res)) := by
  constructor
  · intro h0
    exact floorFilter_nonpos (by omega)
  · intro h0
    have hnar : ∀ kv ∈ narrow pl t, kv.2.quoteVolume.isSome = true :=
      fun kv hkv => hnn kv ((narrow_sublist pl t).subset hkv)
    refine ⟨_, floorFilter_pos h0 hnar, ?_, ?_⟩
    · constructor
      · intro hin
        obtain ⟨hn, hcond⟩ := List.mem_filter.mp hin
        obtain ⟨-, hppl⟩ := mem_narrow.mp hn
        have hc := of_decide_eq_true hcond
        exact ⟨hppl, by simpa [hm] using hc⟩
      · rintro ⟨hppl, hlt⟩
        refine List.mem_filter.mpr
          ⟨mem_narrow.mpr ⟨lookupT_mem hlk, hppl⟩, ?_⟩
        simp [hm, hlt]
    · intro heq res t2 hfp
      exact floor_excluded hw hfp hlk hm h0 heq

/-- C5 witness: with a floor of 500, ETH/USDT (metric exactly 500) is kept
out of the floor stage and the final list, while BTC/USDT (1000) passes. -/
theorem C5_witness :
    (wEngineF.min_value = 0 →
      floorFilter wEngineF.min_value
        (narrow ["BTC/USDT", "ETH/USDT"] wTickers) =
        .ok (narrow ["BTC/USDT", "ETH/USDT"] wTickers)) ∧
    (0 < wEngineF.min_value →
      ∃ fl, floorFilter wEngineF.min_value
          (narrow ["BTC/USDT", "ETH/USDT"] wTickers) = .ok fl ∧
        (("ETH/USDT", (⟨"ETH/USDT", some 500, 0⟩ : Ticker)) ∈ fl ↔
          "ETH/USDT" ∈ ["BTC/USDT", "ETH/USDT"] ∧ wEngineF.min_value < 500) ∧
        ((500 : Int) = wEngineF.min_value →
          ∀ res t2, filter_pairlist wEngineF ["BTC/USDT", "ETH/USDT"]
            wTickers = .ok (res, t2) → "ETH/USDT" ∉ res)) :=
  C5_volume_floor (by decide) (by decide)
    (show lookupT "ETH/USDT" wTickers =
      some ⟨"ETH/USDT", some 500, 0⟩ by decide)
    (show Ticker.quoteVolume ⟨"ETH/USDT", some 500, 0⟩ = some 500 by decide)

/-- C6 (counterexample): in replay mode a candidate pair that is missing from
the ticker snapshot is an error — the override loop executes
`tickers[pair]['quoteVolume'] = volume` for every candidate, so the call
raises KeyError instead of completing. -/
theorem C6_counterexample :
    "BTC/USDT" ∈ ["BTC/USDT"] ∧
    lookupT "BTC/USDT" ([] : Tickers) = none ∧
    filter_pairlist wEngineR ["BTC/USDT"] [] = .error .keyError := by
  refine ⟨by decide, rfl, by decide⟩

/-- C6 (amended): a candidate missing from the snapshot is harmless only in
live mode, where it is silently excluded and the call completes normally; in
replay mode (parseable timerange configured) the same input makes
`filter_pairlist` raise KeyError. Stated for snapshots with no null metrics,
so no unrelated failure interferes. -/
theorem C6_missing_pair {e : Engine} {pl : List String} {t : Tickers}
    (hw : WF t) (hnn : ∀ kv ∈ t, kv.2.quoteVolume.isSome = true)
    {p : String} (hp : p ∈ pl) (hmiss : p ∉ t.map (·.1)) :
    (e.timerange = none →
      ∃ res, filter_pairlist e pl t = .ok (res, t) ∧ p ∉ res) ∧
    (∀ s tr, e.timerange = some s → replayTimerange s = some tr →
      filter_pairlist e pl t = .error .keyError) := by
  constructor
  · intro hnone
    obtain ⟨res, hres, hsub⟩ := filter_pairlist_live_ok hw hnone hnn
    exact ⟨res, hres, fun hin => hmiss (hsub p hin)⟩
  · intro s tr hs htr
    refine filter_pairlist_replay_keyError hs htr hp hmiss ?_
    have hnar : ∀ kv ∈ narrow pl t, kv.2.quoteVolume.isSome = true :=
      fun kv hkv => hnn kv ((narrow_sublist pl t).subset hkv)
    by_cases h0 : 0 < e.min_value
    · exact ⟨_, floorFilter_pos h0 hnar⟩
    · exact ⟨_, floorFilter_nonpos h0⟩

/-- C6 witness: live mode, candidate X/USDT absent from the snapshot — the
call completes, leaves the snapshot alone and omits the pair. -/
theorem C6_witness :
    ∃ res, filter_pairlist wEngine ["X/USDT", "BTC/USDT"] wTickers =
      .ok (res, wTickers) ∧ "X/USDT" ∉ res :=
  (C6_missing_pair (by decide) (by decide)
    (show "X/USDT" ∈ ["X/USDT", "BTC/USDT"] by decide)
    (show "X/USDT" ∉ wTickers.map (·.1) by decide)).1 rfl

/-- C10: the frame effect of `filter_pairlist` on the caller's snapshot.
Without a replay range the returned snapshot is the input, untouched. With
one, the returned snapshot differs from the input exactly in the
`quoteVolume` field of every candidate's entry — overwritten with the
resolved historical volume, floor-removed candidates included (the loops walk
the full candidate list) — while the entry's other fields and every
non-candidate entry are unchanged. -/
theorem C10_frame_effect {e : Engine} {pl : List String} {t : Tickers}
    {res : List String} {t2 : Tickers}
    (h : filter_pairlist e pl t = .ok (res, t2)) :
    (e.timerange = none → t2 = t) ∧
    (∀ s tr, e.timerange = some s → replayTimerange s = some tr →
      t2 = t.map (fun kv => if kv.1 ∈ pl
        then (kv.1, { kv.2 with quoteVolume := some (ruleValue e tr kv.1) })
        else kv)) := by
  obtain ⟨sorted, hrank, -⟩ := filter_pairlist_ok h
  obtain ⟨fl, hfl, hap, hsort⟩ := rankStage_ok hrank
  constructor
  · intro hnone
    rcases applyTimerange_ok_cases hap with ⟨-, rfl⟩ | ⟨s, tr, hs, -, -⟩
    · rfl
    · rw [hnone] at hs
      cases hs
  · intro s tr hs htr
    rcases applyTimerange_ok_cases hap with ⟨hn, -⟩ | ⟨s2, tr2, hs2, htr2, hra⟩
    · rw [hs] at hn
      cases hn
    · rw [hs] at hs2
      cases hs2
      rw [htr] at htr2
      cases htr2
      exact (replayApply_ok hra).1

/-- C10 witness: the 2021-01-01 replay on `wTickers` returns exactly the
pointwise-overwritten snapshot `wTickersR` (BTC/USDT and ETH/USDT get their
historical volumes, the non-candidate BTC/BUSD entry is untouched). -/
theorem C10_witness :
    wTickersR = wTickers.map (fun kv =>
      if kv.1 ∈ ["BTC/USDT", "ETH/USDT"]
      then (kv.1,
        { kv.2 with
            quoteVolume :=
              some (ruleValue wEngineR ⟨1609459200, 1695859200⟩ kv.1) })
      else kv) :=
  (C10_frame_effect
    (show filter_pairlist wEngineR ["BTC/USDT", "ETH/USDT"] wTickers =
      .ok (["ETH/USDT", "BTC/USDT"], wTickersR) by decide)).2
    "20210101" ⟨1609459200, 1695859200⟩ rfl (by decide)

/-- C3: in replay mode every candidate resolves to exactly one, never-null
sort metric: `ruleValue` — the stored first in-window candle's volume if its
timestamp equals the window start, the exchange fallback's first candle under
the same exact-match rule (against `startts * 1000`) for pairs the store
cannot resolve, and 0 otherwise. The ranked list is a permutation of the
floor-surviving entries, so a zero-resolved pair stays in the ranking rather
than being dropped. -/
theorem C3_replay_resolution {e : Engine} {s : String} {tr : TimeRange}
    {pl : List String} {t : Tickers} {sorted : List Ticker} {t2 : Tickers}
    (hs : e.timerange = some s) (htr : replayTimerange s = some tr)
    (hrank : rankStage e pl t = .ok (sorted, t2)) {p : String} (hp : p ∈ pl) :
    (∃ tk, lookupT p t2 = some tk ∧
      tk.quoteVolume = some (ruleValue e tr p)) ∧
    ∃ fl, floorFilter e.min_value (narrow pl t) = .ok fl ∧
      List.Perm sorted (fl.map (refresh t2)) := by
  obtain ⟨fl, hfl, hap, hsort⟩ := rankStage_ok hrank
  constructor
  · rcases applyTimerange_ok_cases hap with ⟨hn, -⟩ | ⟨s2, tr2, hs2, htr2, hra⟩
    · rw [hs] at hn
      cases hn
    · have hkey : p ∈ t.map (·.1) := (replayApply_ok hra).2 p hp
      obtain ⟨old, hold⟩ := lookupT_isSome_of_key hkey
      rw [hs] at hs2
      cases hs2
      rw [htr] at htr2
      cases htr2
      rw [applyTimerange_lookup hap hs htr p, hold]
      refine ⟨{ old with quoteVolume := some (ruleValue e tr p) }, ?_, rfl⟩
      simp [hp]
  · exact ⟨fl, hfl, sortEntries_ok_elim hsort ▸ sortDesc_perm _ _⟩

/-- C3 witness: the 2021-01-01 replay resolves BTC/USDT from the store
(exact-match candle, volume 50) and builds the ranking as a permutation of
the surviving entries. -/
theorem C3_witness :
    (∃ tk, lookupT "BTC/USDT" wTickersR = some tk ∧
      tk.quoteVolume =
        some (ruleValue wEngineR ⟨1609459200, 1695859200⟩ "BTC/USDT")) ∧
    ∃ fl, floorFilter wEngineR.min_value
        (narrow ["BTC/USDT", "ETH/USDT"] wTickers) = .ok fl ∧
      List.Perm wSortedR (fl.map (refresh wTickersR)) :=
  C3_replay_resolution rfl (by decide)
    (show rankStage wEngineR ["BTC/USDT", "ETH/USDT"] wTickers =
      .ok (wSortedR, wTickersR) by decide)
    (show "BTC/USDT" ∈ ["BTC/USDT", "ETH/USDT"] by decide)

/-- C7: a ticker entry with a null sort metric is excluded at candidate
selection; it never reaches the sort stage nor the final whitelist, and the
whole pipeline still completes without error (given a parseable or absent
timerange and a cache miss). -/
theorem C7_null_metric_excluded {e : Engine} {c : Cache} {now : Int}
    {t : Tickers} (hw : WF t)
    (hpar : e.timerange = none ∨ ∃ s tr, e.timerange = some s ∧
      replayTimerange s = some tr)
    (hmiss : cacheGet c now = none ∨ cacheGet c now = some []) :
    ∃ res c2 t2, gen_pairlist e c now t = .ok (res, c2, t2) ∧
      ∀ kv ∈ t, kv.2.quoteVolume = none →
        kv.1 ∉ candidates e t ∧
        (∀ sorted t3, rankStage e (candidates e t) t = .ok (sorted, t3) →
          kv.1 ∉ sorted.map (·.symbol)) ∧
        kv.1 ∉ res := by
  obtain ⟨res, t2, hgen⟩ := genCompute_ok_of now hw hpar
  refine ⟨res, _, t2, by rw [gen_pairlist_miss hmiss]; exact hgen, ?_⟩
  intro kv hkv hnull
  have hnc : kv.1 ∉ candidates e t := by
    intro hc
    have := (candidates_key_spec hw hkv hc).2
    rw [hnull] at this
    simp at this
  refine ⟨hnc, ?_, ?_⟩
  · intro sorted t3 hrank hmem
    obtain ⟨fl, hfl, hap, hsort⟩ := rankStage_ok hrank
    obtain ⟨x, hx, hxs⟩ := List.mem_map.mp hmem
    have hxe : x ∈ fl.map (refresh t3) :=
      (sortEntries_ok_elim hsort ▸ sortDesc_perm _ _ :
        List.Perm sorted _).subset hx
    obtain ⟨kw, hkw, hkwx⟩ := List.mem_map.mp hxe
    obtain ⟨v, hv, hre, hsym, hkwt, hkwpl⟩ := fl_entry_spec hw hfl hap hkw
    apply hnc
    rw [← hxs, ← hkwx, hre, hsym]
    exact hkwpl
  · intro hin
    have hfp := (genCompute_ok hgen).1
    obtain ⟨fl, kw, v, -, -, hkwt, hkwpl, heq, -⟩ := mem_res_spec hw hfp hin
    exact hnc (heq ▸ hkwpl)

/-- C7 witness: on a snapshot containing a null-metric USDT pair the pipeline
completes and drops exactly that pair from candidates, ranking and result. -/
theorem C7_witness :
    ∃ res c2 t2, gen_pairlist wEngine ⟨none⟩ 0 wTickersN =
        .ok (res, c2, t2) ∧
      ∀ kv ∈ wTickersN, kv.2.quoteVolume = none →
        kv.1 ∉ candidates wEngine wTickersN ∧
        (∀ sorted t3, rankStage wEngine (candidates wEngine wTickersN)
            wTickersN = .ok (sorted, t3) →
          kv.1 ∉ sorted.map (·.symbol)) ∧
        kv.1 ∉ res :=
  C7_null_metric_excluded (by decide)
    (Or.inl (show Engine.timerange wEngine = none from rfl))
    (Or.inl (show cacheGet ⟨none⟩ (0 : Int) = none from rfl))

/-- C1: every freshly computed pair list (cache miss or cached empty list)
satisfies the invariants: length at most `number_pairs`; no duplicate
symbols; every symbol's quote currency equals the stake currency; and it is
sorted descending by the sort metric of the (possibly replay-corrected)
returned snapshot, with ties between equal metrics in the original iteration
order of the input snapshot (stable sort). -/
theorem C1_returned_invariants {e : Engine} {c : Cache} {now : Int}
    {t : Tickers} {res : List String} {c2 : Cache} {t2 : Tickers} (hw : WF t)
    (hmiss : cacheGet c now = none ∨ cacheGet c now = some [])
    (h : gen_pairlist e c now t = .ok (res, c2, t2)) :
    res.length ≤ e.number_pairs ∧ res.Nodup ∧
      (∀ p ∈ res, e.exchange.quote p = e.stake_currency) ∧
      res.Pairwise (fun a b => snapVol t2 b ≤ snapVol t2 a ∧
        (snapVol t2 a = snapVol t2 b → snapIdx t a < snapIdx t b)) := by
  rw [gen_pairlist_miss hmiss] at h
  exact genCompute_invariants hw h

/-- C1 witness: the list computed from `wTickers` satisfies all four
invariants. -/
theorem C1_witness :
    (["BTC/USDT", "ETH/USDT"] : List String).length ≤ wEngine.number_pairs ∧
    (["BTC/USDT", "ETH/USDT"] : List String).Nodup ∧
    (∀ p ∈ (["BTC/USDT", "ETH/USDT"] : List String),
      wEngine.exchange.quote p = wEngine.stake_currency) ∧
    (["BTC/USDT", "ETH/USDT"] : List String).Pairwise
      (fun a b => snapVol wTickers b ≤ snapVol wTickers a ∧
        (snapVol wTickers a = snapVol wTickers b →
          snapIdx wTickers a < snapIdx wTickers b)) :=
  C1_returned_invariants (by decide)
    (Or.inl (show cacheGet ⟨none⟩ (0 : Int) = none from rfl))
    (show gen_pairlist wEngine ⟨none⟩ 0 wTickers =
      .ok (["BTC/USDT", "ETH/USDT"],
        ⟨some (["BTC/USDT", "ETH/USDT"], 1800)⟩, wTickers) by decide)
